import Mathlib

/-!
Verification of the MCLauncher installer and configuration core against a
shallow embedding of its Rust sources. External crates (reqwest, sha1,
toml, the filesystem) are abstracted as explicit parameters or oracles;
the control flow and data shapes are translated from the source files
named next to each definition.
-/

namespace MCLauncher

/-- Raw byte strings: `bytes::Bytes` response bodies and file contents. -/
abbrev Bytes := List Nat

namespace Install

/-- Outcome of one GET attempt inside `fetch_bytes`
    (src/src/install/mod.rs lines 103-111): `none` models a transport
    error (the request send or the body read failed), `some b` a
    successfully received body. -/
abbrev AttemptResult := Option Bytes

/-- The install task of src/src/install/mod.rs lines 92-98
    (the `r#type` display field is omitted; paths are strings). -/
structure InstallTask where
  url : String
  sha1 : Option String
  save_file : String
deriving DecidableEq

/-- Body acceptance inside `fetch_bytes`: the body is returned when
    `sha1.is_none()` or when its hex SHA-1 equals the expected code
    (src/src/install/mod.rs lines 112-119). `sha1Hex` abstracts the
    external `sha1` and `hex` crates. -/
def bodyAccepted (sha1Hex : Bytes → String) (sha1 : Option String) (b : Bytes) : Bool :=
  match sha1 with
  | none => true
  | some code => sha1Hex b == code

/-- Trace of one `fetch_bytes` call: the returned value, the number of GET
    attempts issued, and the seconds slept (one list entry per
    `tokio::time::sleep(Duration::from_secs(3))`). -/
structure FetchTrace where
  result : Except String Bytes
  attempts : Nat
  sleeps : List Nat

/-- The retry loop of `fetch_bytes` (src/src/install/mod.rs lines
    102-122): `outcomes i` is what the network yields for the i-th GET,
    `fuel` the remaining loop iterations (5 at entry). A failed iteration
    warns, sleeps 3 seconds and continues; an accepted body is returned
    at once. -/
def fetch_bytes_loop (sha1Hex : Bytes → String) (url : String) (sha1 : Option String)
    (outcomes : Nat → AttemptResult) : Nat → Nat → FetchTrace
  | _, 0 => { result := Except.error ("download " ++ url ++ " fail"), attempts := 0, sleeps := [] }
  | i, fuel+1 =>
    match outcomes i with
    | some b =>
      if bodyAccepted sha1Hex sha1 b then
        { result := Except.ok b, attempts := 1, sleeps := [] }
      else
        let t := fetch_bytes_loop sha1Hex url sha1 outcomes (i+1) fuel
        { result := t.result, attempts := t.attempts + 1, sleeps := 3 :: t.sleeps }
    | none =>
      let t := fetch_bytes_loop sha1Hex url sha1 outcomes (i+1) fuel
      { result := t.result, attempts := t.attempts + 1, sleeps := 3 :: t.sleeps }

/-- `fetch_bytes(url, sha1)` of src/src/install/mod.rs lines 100-124:
    `for _ in 0..5` bounds the loop at 5 attempts. -/
def fetch_bytes (sha1Hex : Bytes → String) (url : String) (sha1 : Option String)
    (outcomes : Nat → AttemptResult) : FetchTrace :=
  fetch_bytes_loop sha1Hex url sha1 outcomes 0 5

/-- Whether the i-th GET attempt fails (transport error, or a body whose
    SHA-1 does not satisfy `bodyAccepted`). -/
def attemptBad (sha1Hex : Bytes → String) (sha1 : Option String)
    (outcomes : Nat → AttemptResult) (i : Nat) : Bool :=
  match outcomes i with
  | none => true
  | some b => !(bodyAccepted sha1Hex sha1 b)

/-- Effect of `InstallTask::install` (src/src/install/mod.rs lines
    127-140). `disk` is the current contents of `save_file` (`none` when
    the file does not exist); `fetch` is the value `fetch_bytes` would
    produce when called. -/
structure InstallEffect where
  fetched : Bool
  created_dirs : Bool
  file : Option Bytes
  result : Except String Unit

/-- `InstallTask::install`: the guard of lines 128-134 downloads unless
    `sha1` is present and the file exists with matching SHA-1; the code
    spells the download condition `sha1.is_none() || !(exists && eq)`,
    whose negation is the `cache_hit` below. On download the parent
    directories are created and the fetched bytes written (lines
    135-137); a fetch failure propagates through the `?` operator. -/
def InstallTask.install (sha1Hex : Bytes → String) (t : InstallTask)
    (disk : Option Bytes) (fetch : Except String Bytes) : InstallEffect :=
  let cache_hit : Bool :=
    match t.sha1, disk with
    | some code, some b => sha1Hex b == code
    | _, _ => false
  if cache_hit then
    { fetched := false, created_dirs := false, file := disk, result := Except.ok () }
  else
    match fetch with
    | Except.ok data =>
      { fetched := true, created_dirs := true, file := some data, result := Except.ok () }
    | Except.error e =>
      { fetched := true, created_dirs := false, file := disk, result := Except.error e }

/-- How a call to the executor's `install` terminates: an orderly `Ok(())`
    return, an orderly `Err(e)` return, or a panic aborting the call. -/
inductive ExecOutcome where
  | retOk : ExecOutcome
  | retErr : String → ExecOutcome
  | panicked : String → ExecOutcome
deriving DecidableEq

/-- First failure among a list of per-task outcomes (`none` = the task's
    install succeeded, `some e` = it failed with error e). -/
def firstFailure : List (Option String) → Option String
  | [] => none
  | some e :: _ => some e
  | none :: rest => firstFailure rest

/-- `TaskPool::install` of src/src/install/mod.rs lines 205-227,
    determinized to one worker: workers pop tasks from the back of the
    shared deque and run `_task.install().await.unwrap()`. `results`
    lists each task's install outcome in pool order. A task error makes
    the worker's `unwrap` panic, and `handle.await.unwrap()` (line 223)
    re-raises that panic inside `install`; only when every task succeeds
    does control reach the final `Ok(())` (line 225). -/
def TaskPool.install (results : List (Option String)) : ExecOutcome :=
  match firstFailure results.reverse with
  | some e => ExecOutcome.panicked e
  | none => ExecOutcome.retOk

/-- A GET request as assembled by the reqwest builder chain: target URL,
    `User-Agent` header value, and the per-request timeout in seconds
    when one is set. -/
structure GetRequest where
  url : String
  user_agent : String
  timeout_secs : Option Nat
deriving DecidableEq

/-- The request built for every `fetch_bytes` attempt in
    src/src/install/mod.rs lines 103-107:
    `client.get(url).header(USER_AGENT, "github.com/funny233-github/MCLauncher").send()`
    with no `.timeout(..)` call in the chain. -/
def fetch_request (url : String) : GetRequest :=
  { url := url, user_agent := "github.com/funny233-github/MCLauncher", timeout_secs := none }

end Install

namespace Installer

/-- The install task of installer/src/lib.rs lines 39-45. -/
structure InstallTask where
  url : String
  sha1 : Option String
  save_file : String
  message : String
deriving DecidableEq

/-- The request built for every `fetch_bytes` attempt in
    installer/src/lib.rs lines 55-59: the same builder chain plus
    `.timeout(Duration::from_secs(10))`. -/
def fetch_request (url : String) : Install.GetRequest :=
  { url := url, user_agent := "github.com/funny233-github/MCLauncher", timeout_secs := some 10 }

/-- `TaskPool::install` of installer/src/lib.rs lines 132-144,
    determinized to one worker: `async_execute`
    (installer/src/asyncuntil/mod.rs lines 22-47) pops the futures from
    the back of a Vec and each future runs `x.install().await.unwrap()`;
    a task error panics, `handle.await.unwrap()` re-raises it, and
    otherwise the function returns its only `Ok(())`. -/
def TaskPool.install (results : List (Option String)) : Install.ExecOutcome :=
  match Install.firstFailure results.reverse with
  | some e => Install.ExecOutcome.panicked e
  | none => Install.ExecOutcome.retOk

end Installer

namespace Api

/-- Whitespace as refused by the regex class `\S` (ASCII portion). -/
def isWS (c : Char) : Bool :=
  c == ' ' || c == '\t' || c == '\n' || c == '\r'

/-- Scan for the first '/' (the literal after the lazy `\S+?`): consumes
    non-space characters and returns them with the terminating '/'
    included, or `none` when a space or the end intervenes. -/
def upToSlash : List Char → Option (List Char)
  | [] => none
  | c :: rest =>
    if c == '/' then some ['/']
    else if isWS c then none
    else (upToSlash rest).map (fun u => c :: u)

/-- Match of the regex `https://\S+?/` anchored at the start of `s`:
    the literal scheme, at least one non-space character (matched
    lazily), then the first '/'. Returns the matched characters. -/
def matchAt (s : List Char) : Option (List Char) :=
  if "https://".toList.isPrefixOf s then
    match s.drop 8 with
    | [] => none
    | c :: rest =>
      if isWS c then none
      else (upToSlash rest).map (fun u => "https://".toList ++ c :: u)
  else none

/-- Leftmost match of `https://\S+?/` in `s`, as found by
    `Regex::captures` (the first match wins; at a given start position
    the lazy quantifier picks the shortest host). -/
def firstOriginMatch : List Char → Option (List Char)
  | [] => none
  | c :: rest =>
    match matchAt (c :: rest) with
    | some m => some m
    | none => firstOriginMatch rest

/-- Fuelled core of Rust's `str::replace`: replaces every non-overlapping
    occurrence of the pattern `p :: ps` from left to right. Fuel at least
    `s.length` makes it total on `s`. -/
def replaceAllFuel : Nat → List Char → Char → List Char → List Char → List Char
  | 0, s, _, _, _ => s
  | fuel + 1, s, p, ps, rep =>
    match s with
    | [] => []
    | c :: rest =>
      if (p :: ps).isPrefixOf (c :: rest) then
        rep ++ replaceAllFuel fuel ((c :: rest).drop (ps.length + 1)) p ps rep
      else
        c :: replaceAllFuel fuel rest p ps rep

/-- Rust's `self.replace(pat, rep)` for a non-empty pattern `p :: ps`. -/
def replaceAll (s : List Char) (p : Char) (ps : List Char) (rep : List Char) : List Char :=
  replaceAllFuel s.length s p ps rep

/-- Whether `pat` occurs as a contiguous sublist of the argument. -/
def containsSub (pat : List Char) : List Char → Bool
  | [] => pat.isEmpty
  | c :: rest => pat.isPrefixOf (c :: rest) || containsSub pat rest

/-- `DomainReplacer::replace_domain` (src/src/api/mod.rs lines 51-57 and
    src/src/install/mod.rs lines 51-57): take the first match of
    `(?<replace>https://\S+?/)` in the string — `captures(..).unwrap()`
    panics when there is none, modelled by `none` — and apply
    `self.replace(&replace["replace"], domain)`, which substitutes every
    occurrence of that matched text. -/
def replace_domain (s : String) (domain : String) : Option String :=
  match firstOriginMatch s.toList with
  | none => none
  | some [] => some s
  | some (p :: ps) => some (String.mk (replaceAll s.toList p ps domain.toList))

end Api

namespace Config

/-- src/src/config/mod.rs lines 48-52. -/
inductive MCLoader where
  | none : MCLoader
  | fabric : String → MCLoader
deriving DecidableEq

/-- src/src/config/mod.rs lines 54-58. -/
structure ModConfig where
  version : Option String
  file_name : Option String
deriving DecidableEq

/-- src/src/config/mod.rs lines 15-23. -/
structure MCMirror where
  version_manifest : String
  assets : String
  client : String
  libraries : String
  fabric_meta : String
  fabric_maven : String
deriving DecidableEq

/-- `MCMirror::official_mirror` (src/src/config/mod.rs lines 26-35). -/
def MCMirror.official_mirror : MCMirror :=
  { version_manifest := "https://piston-meta.mojang.com/"
    assets := "https://resources.download.minecraft.net/"
    client := "https://launcher.mojang.com/"
    libraries := "https://libraries.minecraft.net/"
    fabric_meta := "https://meta.fabricmc.net/"
    fabric_maven := "https://maven.fabricmc.net/" }

/-- src/src/config/mod.rs lines 78-89; the ordered `BTreeMap` of mods is
    modelled as an association list. -/
structure RuntimeConfig where
  max_memory_size : Nat
  window_weight : Nat
  window_height : Nat
  game_dir : String
  game_version : String
  java_path : String
  loader : MCLoader
  mirror : MCMirror
  mods : Option (List (String × ModConfig))
deriving DecidableEq

/-- `impl Default for RuntimeConfig` (src/src/config/mod.rs lines 138-152). -/
def RuntimeConfig.default : RuntimeConfig :=
  { max_memory_size := 5000, window_weight := 854, window_height := 480
    game_dir := "./", game_version := "no_game_version", java_path := "java"
    loader := MCLoader.none, mirror := MCMirror.official_mirror, mods := Option.none }

/-- src/src/config/mod.rs lines 172-179. -/
structure LockedModConfig where
  file_name : String
  version : Option String
  mc_version : String
  url : Option String
  sha1 : Option String
deriving DecidableEq

/-- src/src/config/mod.rs lines 215-218. -/
structure LockedConfig where
  mods : Option (List (String × LockedModConfig))
deriving DecidableEq

/-- src/src/config/mod.rs lines 267-272. -/
structure UserAccount where
  user_name : String
  user_type : String
  user_uuid : String
deriving DecidableEq

/-- `Mac` — mutable access count (src/src/config/mod.rs lines 294-325):
    a value plus the flag recording whether `get_mut` was ever called. -/
structure Mac (α : Type) where
  value : α
  has_mut_accessed : Bool

/-- `Mac::new` (line 303): the flag starts false. -/
def Mac.new {α : Type} (value : α) : Mac α :=
  { value := value, has_mut_accessed := false }

/-- `Mac::get_mut` (lines 316-319) sets the flag; this is the state
    change it leaves behind. -/
def Mac.markMut {α : Type} (m : Mac α) : Mac α :=
  { value := m.value, has_mut_accessed := true }

/-- src/src/config/mod.rs lines 354-359. -/
structure ConfigHandler where
  config : Mac RuntimeConfig
  locked_config : Mac LockedConfig
  user_account : Mac UserAccount

/-- The files `read()` and `write_with_mut()` touch in the working
    directory; `none` means the file does not exist. -/
structure ReadFs where
  config_toml : Option String
  config_lock : Option String
  account_toml : Option String

/-- `std::fs::exists`: `Ok(true)`/`Ok(false)` depending on presence (the
    `Err` case needs an undeterminable path and never arises here). -/
def fs_exists (file : Option String) : Except String Bool :=
  Except.ok file.isSome

/-- `std::fs::read_to_string`: the contents, or a not-found error. -/
def read_to_string (file : Option String) : Except String String :=
  match file with
  | some s => Except.ok s
  | none => Except.error "No such file or directory"

/-- The validation loop of `ConfigHandler::read`
    (src/src/config/mod.rs lines 439-448): the first mod entry carrying
    both `file_name` and `version` aborts the read. -/
def validate_mods_go : List (String × ModConfig) → Except String Unit
  | [] => Except.ok ()
  | (name, conf) :: rest =>
    if conf.file_name.isSome && conf.version.isSome then
      Except.error ("The mod " ++ name ++ " have file_name and version in same time!")
    else validate_mods_go rest

def validate_mods : Option (List (String × ModConfig)) → Except String Unit
  | Option.none => Except.ok ()
  | some l => validate_mods_go l

/-- The lock branch of `read` (src/src/config/mod.rs lines 451-456):
    `if fs::exists("config.lock").is_ok()` read and parse the file,
    `else` default to the empty lock. -/
def read_lock_branch (parse_lock : String → Except String LockedConfig)
    (fs : ReadFs) : Except String LockedConfig :=
  if (fs_exists fs.config_lock).isOk then
    match read_to_string fs.config_lock with
    | Except.error e => Except.error e
    | Except.ok data => parse_lock data
  else Except.ok { mods := Option.none }

/-- The account branch of `read` (src/src/config/mod.rs lines 458-462). -/
def read_account_branch (parse_account : String → Except String UserAccount)
    (fresh_account : UserAccount) (fs : ReadFs) : Except String UserAccount :=
  if (fs_exists fs.account_toml).isOk then
    match read_to_string fs.account_toml with
    | Except.error e => Except.error e
    | Except.ok data => parse_account data
  else Except.ok fresh_account

/-- `ConfigHandler::read` (src/src/config/mod.rs lines 435-469). The toml
    deserializers are the external `toml` crate, passed as parameters.
    Note the lock and account branches test `fs::exists(..).is_ok()`,
    which is also true when the file is absent (`Ok(false)`). -/
def ConfigHandler.read (parse_config : String → Except String RuntimeConfig)
    (parse_lock : String → Except String LockedConfig)
    (parse_account : String → Except String UserAccount)
    (fresh_account : UserAccount) (fs : ReadFs) : Except String ConfigHandler :=
  match read_to_string fs.config_toml with
  | Except.error e => Except.error e
  | Except.ok s =>
    match parse_config s with
    | Except.error e => Except.error e
    | Except.ok config =>
      match validate_mods config.mods with
      | Except.error e => Except.error e
      | Except.ok _ =>
        match read_lock_branch parse_lock fs with
        | Except.error e => Except.error e
        | Except.ok locked_config =>
          match read_account_branch parse_account fresh_account fs with
          | Except.error e => Except.error e
          | Except.ok user_account =>
            Except.ok { config := Mac.new config, locked_config := Mac.new locked_config,
                        user_account := Mac.new user_account }

/-- One observation of the handle through an accessor
    (src/src/config/mod.rs lines 361-390): the `*_mut` accessors go
    through `Mac::get_mut` and set the touched flag, the plain ones
    through `Mac::get` and do not. -/
inductive Access where
  | config : Access
  | configMut : Access
  | lockedConfig : Access
  | lockedConfigMut : Access
  | userAccount : Access
  | userAccountMut : Access
deriving DecidableEq, BEq

def ConfigHandler.applyAccess (h : ConfigHandler) : Access → ConfigHandler
  | Access.config => h
  | Access.configMut => { h with config := h.config.markMut }
  | Access.lockedConfig => h
  | Access.lockedConfigMut => { h with locked_config := h.locked_config.markMut }
  | Access.userAccount => h
  | Access.userAccountMut => { h with user_account := h.user_account.markMut }

def ConfigHandler.applyAccesses (h : ConfigHandler) (trace : List Access) : ConfigHandler :=
  trace.foldl ConfigHandler.applyAccess h

/-- What one call to `write_with_mut` does to the world. -/
structure WriteEffect where
  wrote_config_toml : Bool
  wrote_config_lock : Bool
  wrote_account_toml : Bool
  reconciled_mods : Bool
deriving DecidableEq

/-- `ConfigHandler::write_with_mut` (src/src/config/mod.rs lines
    498-518), also run by `Drop` (lines 690-697): each document is
    written back exactly when its `Mac` flag is set, and the mod
    directory is reconciled (disable then enable) exactly when
    `fs::metadata(<game_dir>/mods)` succeeds, regardless of the flags. -/
def ConfigHandler.write_with_mut (h : ConfigHandler) (mods_dir_exists : Bool) : WriteEffect :=
  { wrote_config_toml := h.config.has_mut_accessed
    wrote_config_lock := h.locked_config.has_mut_accessed
    wrote_account_toml := h.user_account.has_mut_accessed
    reconciled_mods := mods_dir_exists }

/-- String suffix test over the character list (byte positions coincide
    for the ASCII suffixes used here). -/
def strEndsWith (s suffixStr : String) : Bool :=
  suffixStr.toList.isSuffixOf s.toList

/-- `String::truncate(len - n)` as used on `name.to_string()`. -/
def strDropRight (s : String) (n : Nat) : String :=
  String.mk (s.toList.take (s.toList.length - n))

/-- One entry yielded by `WalkDir::new(&mod_dir)`: its file name and
    whether it is a directory. -/
structure DirEntry where
  name : String
  isDir : Bool
deriving DecidableEq

/-- `BTreeMap::get` on the association-list model. -/
def lookupMod (name : String) : List (String × LockedModConfig) → Option LockedModConfig
  | [] => Option.none
  | (k, v) :: rest => if k = name then some v else lookupMod name rest

/-- The `used_files` set of `disable_unuse_mods` / `enable_used_mods`
    (src/src/config/mod.rs lines 624-630 and 657-663): lock file names of
    spec mods, empty unless both maps are present. -/
def used_files (config_mods : Option (List (String × ModConfig)))
    (locked_mods : Option (List (String × LockedModConfig))) : List String :=
  match config_mods, locked_mods with
  | some cm, some lm => cm.filterMap (fun p => (lookupMod p.1 lm).map (fun m => m.file_name))
  | _, _ => []

/-- The renames performed by `ConfigHandler::disable_unuse_mods`
    (src/src/config/mod.rs lines 617-648) over the walked entries: skip
    any entry named "mods" or ending in ".unuse"; every other entry whose
    name is not in `used` — the code never asks whether the entry is a
    directory — is renamed to `name ++ ".unuse"`. -/
def disable_unuse_mods (used : List String) (entries : List DirEntry) :
    List (String × String) :=
  entries.filterMap (fun e =>
    if e.name == "mods" || strEndsWith e.name ".unuse" then Option.none
    else if used.contains e.name then Option.none
    else some (e.name, e.name ++ ".unuse"))

/-- The renames performed by `ConfigHandler::enable_used_mods`
    (src/src/config/mod.rs lines 651-687): entries ending in ".unuse"
    whose name equals `x ++ ".unuse"` for some used file `x` are renamed
    with the suffix truncated away (again with no directory check). -/
def enable_used_mods (used : List String) (entries : List DirEntry) :
    List (String × String) :=
  entries.filterMap (fun e =>
    if strEndsWith e.name ".unuse" then
      if used.any (fun x => x ++ ".unuse" == e.name) then
        some (e.name, strDropRight e.name 6)
      else Option.none
    else Option.none)

end Config

namespace Modmanage

/-- `mod_installtasks` (src/src/modmanage/mod.rs lines 98-126): error if
    the lock has no mods; otherwise entries with both `url` and `sha1`
    become install tasks saving to `<game_dir>/mods/<file_name>` (the
    `ok_or_else` extractions cannot fail after the filter). -/
def mod_installtasks (h : Config.ConfigHandler) :
    Except String (List Installer.InstallTask) :=
  match h.locked_config.value.mods with
  | Option.none => Except.error "No mods found in config.lock"
  | some mods =>
    Except.ok ((mods.filter (fun p => p.2.url.isSome && p.2.sha1.isSome)).map
      (fun p =>
        { url := p.2.url.getD ""
          sha1 := some (p.2.sha1.getD "")
          save_file := h.config.value.game_dir ++ "/mods/" ++ p.2.file_name
          message := "Mod " ++ p.2.file_name ++ " installed" }))

/-- `install` (src/src/modmanage/mod.rs lines 128-152): return `Ok` at
    once when either mods map is absent; otherwise assign through
    `locked_config_mut()` — setting the lock's touched flag — the lock
    entries filtered to names present in the spec, then derive the
    install tasks from the pruned handler. -/
def install (h : Config.ConfigHandler) :
    Except String (Config.ConfigHandler × List Installer.InstallTask) :=
  if h.locked_config.value.mods.isNone || h.config.value.mods.isNone then
    Except.ok (h, [])
  else
    let pruned := (h.locked_config.value.mods.getD []).filter
      (fun p => (h.config.value.mods.getD []).any (fun q => q.1 == p.1))
    let h2 : Config.ConfigHandler :=
      { h with locked_config :=
          { value := { h.locked_config.value with mods := some pruned }
            has_mut_accessed := true } }
    match mod_installtasks h2 with
    | Except.ok tasks => Except.ok (h2, tasks)
    | Except.error e => Except.error e

end Modmanage

end MCLauncher

namespace MCLauncher

namespace Install

/-- C1: `InstallTask::install` performs no network fetch and leaves the
    destination file unchanged exactly when the expected digest is
    present, the destination exists and its contents' SHA-1 equals the
    digest; in every other case (including digest absent with the file
    present) it calls `fetch_bytes`, and when that yields bytes it
    creates the parent directories and writes exactly those bytes to the
    destination, while a fetch failure propagates as the error with the
    file left unchanged. -/
theorem install_cache_hit_iff (sha1Hex : Bytes → String) (t : InstallTask)
    (disk : Option Bytes) (fetch : Except String Bytes) :
    (((t.install sha1Hex disk fetch).fetched = false ∧
        (t.install sha1Hex disk fetch).file = disk) ↔
      ∃ code b, t.sha1 = some code ∧ disk = some b ∧ sha1Hex b = code) ∧
    ((¬ ∃ code b, t.sha1 = some code ∧ disk = some b ∧ sha1Hex b = code) →
      ∀ data, fetch = Except.ok data →
        t.install sha1Hex disk fetch =
          { fetched := true, created_dirs := true, file := some data,
            result := Except.ok () }) ∧
    ((¬ ∃ code b, t.sha1 = some code ∧ disk = some b ∧ sha1Hex b = code) →
      ∀ e, fetch = Except.error e →
        t.install sha1Hex disk fetch =
          { fetched := true, created_dirs := false, file := disk,
            result := Except.error e }) := by
  unfold InstallTask.install
  rcases hs : t.sha1 with _ | code <;> rcases hd : disk with _ | b <;>
    cases fetch <;>
      simp [hs, hd, beq_iff_eq] <;>
        by_cases hcmp : sha1Hex b = code <;> simp [hcmp]

/-- C1 witness: with expected digest "h" and an existing file hashing to
    "h", the task neither fetches nor changes the file. -/
theorem install_cache_hit_iff_witness :
    (InstallTask.install (fun _ => "h")
        { url := "u", sha1 := some "h", save_file := "f" }
        (some [0]) (Except.error "down")).fetched = false ∧
    (InstallTask.install (fun _ => "h")
        { url := "u", sha1 := some "h", save_file := "f" }
        (some [0]) (Except.error "down")).file = some [0] :=
  (install_cache_hit_iff (fun _ => "h")
      { url := "u", sha1 := some "h", save_file := "f" }
      (some [0]) (Except.error "down")).1.mpr ⟨"h", [0], rfl, rfl, rfl⟩

theorem fetch_loop_all_bad (sha1Hex : Bytes → String) (url : String) (sha1 : Option String)
    (outcomes : Nat → AttemptResult) :
    ∀ fuel i, (∀ j, j < fuel → attemptBad sha1Hex sha1 outcomes (i + j) = true) →
      fetch_bytes_loop sha1Hex url sha1 outcomes i fuel =
        { result := Except.error ("download " ++ url ++ " fail"), attempts := fuel,
          sleeps := List.replicate fuel 3 } := by
  intro fuel
  induction fuel with
  | zero => intro i _; rfl
  | succ n ih =>
    intro i h
    have h0 := h 0 (Nat.succ_pos n)
    rw [Nat.add_zero] at h0
    unfold attemptBad at h0
    have hrest := ih (i + 1) (fun j hj => by
      have := h (j + 1) (Nat.succ_lt_succ hj)
      rwa [show i + (j + 1) = i + 1 + j by omega] at this)
    unfold fetch_bytes_loop
    cases ho : outcomes i with
    | none =>
      simp only [hrest, List.replicate_succ]
    | some b =>
      rw [ho] at h0
      have hb : bodyAccepted sha1Hex sha1 b = false := by simpa using h0
      simp only [hb, if_neg, Bool.false_eq_true, not_false_iff, hrest, List.replicate_succ]

theorem fetch_loop_first_good (sha1Hex : Bytes → String) (url : String) (sha1 : Option String)
    (outcomes : Nat → AttemptResult) :
    ∀ fuel i k b, k < fuel →
      (∀ j, j < k → attemptBad sha1Hex sha1 outcomes (i + j) = true) →
      outcomes (i + k) = some b → bodyAccepted sha1Hex sha1 b = true →
      fetch_bytes_loop sha1Hex url sha1 outcomes i fuel =
        { result := Except.ok b, attempts := k + 1, sleeps := List.replicate k 3 } := by
  intro fuel
  induction fuel with
  | zero => intro i k b hk; exact absurd hk (Nat.not_lt_zero k)
  | succ n ih =>
    intro i k b hk hbad hout hacc
    unfold fetch_bytes_loop
    cases k with
    | zero =>
      rw [Nat.add_zero] at hout
      simp only [hout, hacc, if_pos, List.replicate]
    | succ m =>
      have h0 := hbad 0 (Nat.succ_pos m)
      rw [Nat.add_zero] at h0
      unfold attemptBad at h0
      have hrest := ih (i + 1) m b (Nat.lt_of_succ_lt_succ hk)
        (fun j hj => by
          have := hbad (j + 1) (Nat.succ_lt_succ hj)
          rwa [show i + (j + 1) = i + 1 + j by omega] at this)
        (by rwa [show i + (m + 1) = i + 1 + m by omega] at hout) hacc
      cases ho : outcomes i with
      | none =>
        simp only [hrest, List.replicate_succ]
      | some bb =>
        rw [ho] at h0
        have hb : bodyAccepted sha1Hex sha1 bb = false := by simpa using h0
        simp only [hb, if_neg, Bool.false_eq_true, not_false_iff, hrest, List.replicate_succ]

theorem fetch_loop_result_step (sha1Hex : Bytes → String) (url : String) (sha1 : Option String)
    (outcomes : Nat → AttemptResult) (i n : Nat)
    (hbad : attemptBad sha1Hex sha1 outcomes i = true) :
    (fetch_bytes_loop sha1Hex url sha1 outcomes i (n + 1)).result =
      (fetch_bytes_loop sha1Hex url sha1 outcomes (i + 1) n).result := by
  unfold attemptBad at hbad
  cases ho : outcomes i with
  | none =>
    simp only [fetch_bytes_loop, ho]
  | some b =>
    rw [ho] at hbad
    have hb : bodyAccepted sha1Hex sha1 b = false := by simpa using hbad
    simp only [fetch_bytes_loop, ho, hb]
    simp

theorem fetch_loop_ok_iff (sha1Hex : Bytes → String) (url : String) (sha1 : Option String)
    (outcomes : Nat → AttemptResult) :
    ∀ fuel i,
      (∃ b, (fetch_bytes_loop sha1Hex url sha1 outcomes i fuel).result = Except.ok b) ↔
      ∃ j, j < fuel ∧ attemptBad sha1Hex sha1 outcomes (i + j) = false := by
  intro fuel
  induction fuel with
  | zero =>
    intro i
    constructor
    · rintro ⟨b, hb⟩; exact absurd hb (by simp [fetch_bytes_loop])
    · rintro ⟨j, hj, _⟩; exact absurd hj (Nat.not_lt_zero j)
  | succ n ih =>
    intro i
    by_cases hbadi : attemptBad sha1Hex sha1 outcomes i = true
    · rw [fetch_loop_result_step sha1Hex url sha1 outcomes i n hbadi]
      rw [ih (i + 1)]
      constructor
      · rintro ⟨j, hj, hjb⟩
        exact ⟨j + 1, Nat.succ_lt_succ hj, by rwa [show i + (j + 1) = i + 1 + j by omega]⟩
      · rintro ⟨j, hj, hjb⟩
        cases j with
        | zero => rw [Nat.add_zero] at hjb; rw [hbadi] at hjb; exact absurd hjb (by simp)
        | succ m =>
          exact ⟨m, Nat.lt_of_succ_lt_succ hj,
            by rwa [show i + (m + 1) = i + 1 + m by omega] at hjb⟩
    · have hbf : attemptBad sha1Hex sha1 outcomes i = false := by
        simpa [Bool.not_eq_true] using hbadi
      constructor
      · intro _
        exact ⟨0, Nat.succ_pos n, by rwa [Nat.add_zero]⟩
      · intro _
        unfold attemptBad at hbf
        cases ho : outcomes i with
        | none => rw [ho] at hbf; exact absurd hbf (by simp)
        | some b =>
          rw [ho] at hbf
          have hacc : bodyAccepted sha1Hex sha1 b = true := by simpa using hbf
          refine ⟨b, ?_⟩
          unfold fetch_bytes_loop
          rw [ho]
          simp [hacc]

theorem fetch_loop_attempts_le (sha1Hex : Bytes → String) (url : String) (sha1 : Option String)
    (outcomes : Nat → AttemptResult) :
    ∀ fuel i, (fetch_bytes_loop sha1Hex url sha1 outcomes i fuel).attempts ≤ fuel := by
  intro fuel
  induction fuel with
  | zero => intro i; simp [fetch_bytes_loop]
  | succ n ih =>
    intro i
    unfold fetch_bytes_loop
    cases ho : outcomes i with
    | none => simpa using Nat.succ_le_succ (ih (i + 1))
    | some b =>
      by_cases hacc : bodyAccepted sha1Hex sha1 b = true
      · simp [hacc]
      · simpa [hacc] using Nat.succ_le_succ (ih (i + 1))

/-- C2: `fetch_bytes` issues at most 5 GET attempts; if the k-th attempt
    (k < 5) is the first one whose body is received and accepted (digest
    absent or SHA-1 equal), it returns exactly that body after k
    3-second sleeps and k+1 attempts; each failed attempt is followed by
    a 3-second sleep and, while attempts remain, a retry; and the result
    is the exhaustion error for `url` precisely when all 5 attempts fail. -/
theorem fetch_bytes_spec (sha1Hex : Bytes → String) (url : String) (sha1 : Option String)
    (outcomes : Nat → AttemptResult) :
    (fetch_bytes sha1Hex url sha1 outcomes).attempts ≤ 5 ∧
    (∀ k b, k < 5 → (∀ j, j < k → attemptBad sha1Hex sha1 outcomes j = true) →
      outcomes k = some b → bodyAccepted sha1Hex sha1 b = true →
      fetch_bytes sha1Hex url sha1 outcomes =
        { result := Except.ok b, attempts := k + 1, sleeps := List.replicate k 3 }) ∧
    ((∀ j, j < 5 → attemptBad sha1Hex sha1 outcomes j = true) →
      fetch_bytes sha1Hex url sha1 outcomes =
        { result := Except.error ("download " ++ url ++ " fail"), attempts := 5,
          sleeps := List.replicate 5 3 }) ∧
    ((fetch_bytes sha1Hex url sha1 outcomes).result =
        Except.error ("download " ++ url ++ " fail") ↔
      ∀ j, j < 5 → attemptBad sha1Hex sha1 outcomes j = true) := by
  refine ⟨fetch_loop_attempts_le sha1Hex url sha1 outcomes 5 0, ?_, ?_, ?_⟩
  · intro k b hk hbad hout hacc
    exact fetch_loop_first_good sha1Hex url sha1 outcomes 5 0 k b hk
      (by simpa using hbad) (by simpa using hout) hacc
  · intro hbad
    exact fetch_loop_all_bad sha1Hex url sha1 outcomes 5 0 (by simpa using hbad)
  · constructor
    · intro herr j hj
      by_contra hb
      have hbf : attemptBad sha1Hex sha1 outcomes j = false := by
        simpa [Bool.not_eq_true] using hb
      have hok : ∃ b, (fetch_bytes_loop sha1Hex url sha1 outcomes 0 5).result =
          Except.ok b :=
        (fetch_loop_ok_iff sha1Hex url sha1 outcomes 5 0).mpr ⟨j, hj, by simpa using hbf⟩
      rcases hok with ⟨b, hb2⟩
      rw [show fetch_bytes_loop sha1Hex url sha1 outcomes 0 5 =
        fetch_bytes sha1Hex url sha1 outcomes from rfl] at hb2
      rw [herr] at hb2
      exact absurd hb2 (by simp)
    · intro hbad
      have h := fetch_loop_all_bad sha1Hex url sha1 outcomes 5 0 (by simpa using hbad)
      unfold fetch_bytes
      rw [h]

/-- C2 witness: a transport error on attempt 0 followed by an accepted
    body on attempt 1 yields that body after one 3-second sleep and two
    attempts. -/
theorem fetch_bytes_spec_witness :
    fetch_bytes (fun _ => "") "u" none (fun i => if i = 0 then none else some [1]) =
      { result := Except.ok [1], attempts := 2, sleeps := [3] } :=
  (fetch_bytes_spec (fun _ => "") "u" none
      (fun i => if i = 0 then none else some [1])).2.1 1 [1] (by decide)
    (by intro j hj; interval_cases j; rfl) rfl rfl

end Install

/-- C3: the executors never return a task failure as an `Err`: a failing
    task aborts `TaskPool::install` through the worker's
    `install().await.unwrap()` panic (re-raised by
    `handle.await.unwrap()`), and the functions return `Ok(())` only when
    every task succeeds — contradicting the claim and the functions' own
    comment "Return Error when install fail 5 times". The first conjunct
    evaluates the launcher executor at a pool whose second task fails
    after exhausting its fetch attempts. -/
theorem taskpool_install_never_returns_err :
    Install.TaskPool.install [Option.none, some "download u fail"] =
      Install.ExecOutcome.panicked "download u fail" ∧
    (∀ results e, Install.TaskPool.install results ≠ Install.ExecOutcome.retErr e) ∧
    (∀ results e, Installer.TaskPool.install results ≠ Install.ExecOutcome.retErr e) ∧
    Install.TaskPool.install [Option.none, Option.none] = Install.ExecOutcome.retOk := by
  refine ⟨rfl, ?_, ?_, rfl⟩
  · intro results e
    unfold Install.TaskPool.install
    cases Install.firstFailure results.reverse <;> simp
  · intro results e
    unfold Installer.TaskPool.install
    cases Install.firstFailure results.reverse <;> simp

/-- C8 counterexample: the GET attempt built by the launcher's own
    `fetch_bytes` (src/src/install/mod.rs) carries no request timeout at
    all, refuting "every individual GET attempt carries a 10-second
    request timeout". -/
theorem fetch_request_missing_timeout :
    (Install.fetch_request "https://example.com/x").timeout_secs = Option.none ∧
    (Install.fetch_request "https://example.com/x").timeout_secs ≠ some 10 :=
  ⟨rfl, by simp [Install.fetch_request]⟩

/-- C8 amended: every GET attempt issued by the installer crate's
    `fetch_bytes` carries the 10-second request timeout and the fixed
    User-Agent header; the attempts issued by the launcher's own
    `fetch_bytes` carry the same fixed User-Agent but no request
    timeout. -/
theorem fetch_request_spec (url : String) :
    (Installer.fetch_request url).timeout_secs = some 10 ∧
    (Installer.fetch_request url).user_agent = "github.com/funny233-github/MCLauncher" ∧
    (Install.fetch_request url).user_agent = "github.com/funny233-github/MCLauncher" ∧
    (Install.fetch_request url).timeout_secs = Option.none :=
  ⟨rfl, rfl, rfl, rfl⟩

namespace Api

theorem upToSlash_spec (h2 rest : List Char)
    (hns : ∀ c ∈ h2, isWS c = false) (hnsl : ∀ c ∈ h2, c ≠ '/') :
    upToSlash (h2 ++ '/' :: rest) = some (h2 ++ ['/']) := by
  induction h2 with
  | nil => simp [upToSlash]
  | cons c cs ih =>
    have hc1 : isWS c = false := hns c (List.mem_cons_self c cs)
    have hc2 : c ≠ '/' := hnsl c (List.mem_cons_self c cs)
    have hbeq : (c == '/') = false := by simpa using hc2
    have ih2 := ih (fun d hd => hns d (List.mem_cons_of_mem c hd))
      (fun d hd => hnsl d (List.mem_cons_of_mem c hd))
    simp [upToSlash, hbeq, hc1, ih2]

theorem matchAt_origin (hh rest : List Char) (hne : hh ≠ [])
    (hns : ∀ c ∈ hh, isWS c = false) (hnsl : ∀ c ∈ hh, c ≠ '/') :
    matchAt ("https://".toList ++ (hh ++ '/' :: rest)) =
      some ("https://".toList ++ (hh ++ ['/'])) := by
  cases hh with
  | nil => exact absurd rfl hne
  | cons c cs =>
    have hpre : "https://".toList.isPrefixOf
        ("https://".toList ++ (c :: cs ++ '/' :: rest)) = true :=
      List.isPrefixOf_iff_prefix.mpr (List.prefix_append _ _)
    have hdrop : ("https://".toList ++ (c :: cs ++ '/' :: rest)).drop 8 =
        c :: cs ++ '/' :: rest := by
      rw [show (8 : Nat) = "https://".toList.length from rfl]
      exact List.drop_left _ _
    have hc1 : isWS c = false := hns c (List.mem_cons_self c cs)
    have hu := upToSlash_spec cs rest
      (fun d hd => hns d (List.mem_cons_of_mem c hd))
      (fun d hd => hnsl d (List.mem_cons_of_mem c hd))
    unfold matchAt
    simp [hpre, hdrop, hc1, hu]

theorem firstOriginMatch_at_start (s m : List Char) (hs : s ≠ [])
    (hm : matchAt s = some m) : firstOriginMatch s = some m := by
  cases s with
  | nil => exact absurd rfl hs
  | cons c rest =>
    unfold firstOriginMatch
    rw [hm]

theorem replaceAllFuel_no_occurrence (p : Char) (ps rep : List Char) :
    ∀ fuel s, s.length ≤ fuel → containsSub (p :: ps) s = false →
      replaceAllFuel fuel s p ps rep = s := by
  intro fuel
  induction fuel with
  | zero =>
    intro s hle _
    cases s with
    | nil => rfl
    | cons c rest => simp at hle
  | succ n ih =>
    intro s hle hnc
    cases s with
    | nil => rfl
    | cons c rest =>
      unfold containsSub at hnc
      have h1 : (p :: ps).isPrefixOf (c :: rest) = false :=
        (Bool.or_eq_false_iff.mp hnc).1
      have h2 : containsSub (p :: ps) rest = false :=
        (Bool.or_eq_false_iff.mp hnc).2
      unfold replaceAllFuel
      simp only [h1, Bool.false_eq_true, if_false]
      rw [ih rest (Nat.le_of_succ_le_succ (by simpa using hle)) h2]

theorem replaceAllFuel_single (p : Char) (ps rep rest : List Char)
    (hnc : containsSub (p :: ps) rest = false) :
    ∀ fuel, ps.length + 1 + rest.length ≤ fuel →
      replaceAllFuel fuel ((p :: ps) ++ rest) p ps rep = rep ++ rest := by
  intro fuel hle
  cases fuel with
  | zero => omega
  | succ n =>
    have hpref : (p :: ps).isPrefixOf (p :: (ps ++ rest)) = true :=
      List.isPrefixOf_iff_prefix.mpr (by
        have hap := List.prefix_append (p :: ps) rest
        simp only [List.cons_append] at hap
        exact hap)
    have hdrop : (p :: (ps ++ rest)).drop (ps.length + 1) = rest := by
      rw [List.drop_succ_cons]
      exact List.drop_left _ _
    unfold replaceAllFuel
    simp only [List.cons_append, hpref, if_true, hdrop]
    rw [replaceAllFuel_no_occurrence p ps rep n rest (by omega) hnc]

/-- C7 amended: for any url of the form `https://<host>/<rest>` — host
    non-empty, without whitespace or '/' — whose origin `https://<host>/`
    does not occur again inside `<rest>`, `replace_domain(url, b)` is `b`
    followed by `<rest>`. The unconditional claim fails (see the
    counterexample) because `str::replace` substitutes every occurrence
    of the matched origin text, not only the leading one. -/
theorem replace_domain_spec (hh rest domain : List Char) (hne : hh ≠ [])
    (hns : ∀ c ∈ hh, isWS c = false) (hnsl : ∀ c ∈ hh, c ≠ '/')
    (honce : containsSub ("https://".toList ++ (hh ++ ['/'])) rest = false) :
    replace_domain (String.mk ("https://".toList ++ (hh ++ '/' :: rest)))
        (String.mk domain) =
      some (String.mk (domain ++ rest)) := by
  have hm := matchAt_origin hh rest hne hns hnsl
  have hfm := firstOriginMatch_at_start _ _ (by simp) hm
  unfold replace_domain
  rw [show (String.mk ("https://".toList ++ (hh ++ '/' :: rest))).toList =
    "https://".toList ++ (hh ++ '/' :: rest) from rfl]
  rw [hfm]
  rw [show "https://".toList ++ (hh ++ ['/']) =
    'h' :: ("ttps://".toList ++ (hh ++ ['/'])) from by
      rw [show "https://".toList = 'h' :: "ttps://".toList from rfl]
      simp]
  have hsplit : "https://".toList ++ (hh ++ '/' :: rest) =
      ('h' :: ("ttps://".toList ++ (hh ++ ['/']))) ++ rest := by
    rw [show "https://".toList = 'h' :: "ttps://".toList from rfl]
    simp
  have honce2 : containsSub ('h' :: ("ttps://".toList ++ (hh ++ ['/']))) rest = false := by
    rw [show 'h' :: ("ttps://".toList ++ (hh ++ ['/'])) =
      "https://".toList ++ (hh ++ ['/']) from by
        rw [show "https://".toList = 'h' :: "ttps://".toList from rfl]
        simp]
    exact honce
  show some (String.mk (replaceAll ("https://".toList ++ (hh ++ '/' :: rest)) 'h'
      ("ttps://".toList ++ (hh ++ ['/'])) domain)) = some (String.mk (domain ++ rest))
  rw [hsplit]
  unfold replaceAll
  rw [replaceAllFuel_single 'h' ("ttps://".toList ++ (hh ++ ['/'])) domain rest honce2
    (('h' :: ("ttps://".toList ++ (hh ++ ['/'])) ++ rest).length) (by simp; omega)]

/-- C7 witness: url `https://example.com/path/file.jar` with base
    `https://mirror.net/` rewrites to
    `https://mirror.net/path/file.jar`. -/
theorem replace_domain_spec_witness :
    replace_domain
        (String.mk ("https://".toList ++ ("example.com".toList ++ '/' :: "path/file.jar".toList)))
        (String.mk "https://mirror.net/".toList) =
      some (String.mk ("https://mirror.net/".toList ++ "path/file.jar".toList)) :=
  replace_domain_spec "example.com".toList "path/file.jar".toList "https://mirror.net/".toList
    (by decide) (by decide) (by decide) (by decide)

/-- C7 counterexample: with url "https://a/https://a/f" — of the claimed
    form with host "a" and rest "https://a/f" — and base "https://m/",
    the code produces "https://m/https://m/f" (the origin text inside
    the path was rewritten too), not the claimed
    "https://m/https://a/f". -/
theorem replace_domain_replaces_every_occurrence :
    replace_domain "https://a/https://a/f" "https://m/" = some "https://m/https://m/f" ∧
    ("https://m/https://m/f" : String) ≠ "https://m/https://a/f" := by
  constructor
  · decide
  · decide

end Api

namespace Config

theorem validate_mods_go_ok_iff (l : List (String × ModConfig)) :
    (validate_mods_go l).isOk = true ↔
      ∀ p ∈ l, ¬(p.2.file_name.isSome = true ∧ p.2.version.isSome = true) := by
  induction l with
  | nil =>
    constructor
    · intro _ p hp; exact absurd hp (List.not_mem_nil p)
    · intro _; rfl
  | cons q rest ih =>
    cases q with
    | mk name conf =>
      have hstep : validate_mods_go ((name, conf) :: rest) =
          if (conf.file_name.isSome && conf.version.isSome) = true then
            Except.error ("The mod " ++ name ++ " have file_name and version in same time!")
          else validate_mods_go rest := rfl
      by_cases hb : (conf.file_name.isSome && conf.version.isSome) = true
      · rw [hstep, if_pos hb]
        constructor
        · intro hfalse; exact absurd hfalse (by simp [Except.isOk, Except.toBool])
        · intro hall
          have hthis := hall (name, conf) (List.mem_cons_self _ _)
          simp only [Bool.and_eq_true] at hb
          exact absurd ⟨hb.1, hb.2⟩ hthis
      · rw [hstep, if_neg hb]
        rw [ih]
        constructor
        · intro hall p hp
          rcases List.mem_cons.mp hp with heq | hmem
          · subst heq
            intro hcontra
            exact hb (by simp only [Bool.and_eq_true]; exact ⟨hcontra.1, hcontra.2⟩)
          · exact hall p hmem
        · intro hall p hp
          exact hall p (List.mem_cons_of_mem _ hp)

theorem validate_mods_ok_iff (mods : Option (List (String × ModConfig))) :
    (validate_mods mods).isOk = true ↔
      ∀ p ∈ mods.getD [], ¬(p.2.file_name.isSome = true ∧ p.2.version.isSome = true) := by
  cases mods with
  | none => simp [validate_mods, Except.isOk, Except.toBool]
  | some l => simpa [validate_mods] using validate_mods_go_ok_iff l

/-- C4 amended: `read()` rejects the spec exactly when some mod entry has
    both `version` and `file_name` set; consequently after a successful
    read every mod entry has at most one of the two set. "Exactly one"
    does not hold: an entry with neither set is accepted (see the
    counterexample). -/
theorem read_validate_spec :
    (∀ mods : Option (List (String × ModConfig)),
      (validate_mods mods).isOk = false ↔
        ∃ p ∈ mods.getD [], p.2.file_name.isSome = true ∧ p.2.version.isSome = true) ∧
    (∀ pc pl pa fa fs h, ConfigHandler.read pc pl pa fa fs = Except.ok h →
      ∀ p ∈ h.config.value.mods.getD [],
        ¬(p.2.version.isSome = true ∧ p.2.file_name.isSome = true)) := by
  constructor
  · intro mods
    have hiff := validate_mods_ok_iff mods
    constructor
    · intro hfalse
      by_contra hnex
      push_neg at hnex
      have : (validate_mods mods).isOk = true := hiff.mpr (by
        intro p hp hcontra
        exact absurd hcontra.2 (by
          have := hnex p hp hcontra.1
          simp [this]))
      rw [this] at hfalse
      exact Bool.true_eq_false.mp hfalse
    · rintro ⟨p, hp, h1, h2⟩
      cases hok : (validate_mods mods).isOk with
      | false => rfl
      | true =>
        exact absurd ⟨h1, h2⟩ (hiff.mp hok p hp)
  · intro pc pl pa fa fs h hread p hp hboth
    unfold ConfigHandler.read at hread
    split at hread
    · exact Except.noConfusion hread
    · rename_i s h1
      split at hread
      · exact Except.noConfusion hread
      · rename_i config h2
        split at hread
        · exact Except.noConfusion hread
        · rename_i u h3
          split at hread
          · exact Except.noConfusion hread
          · rename_i locked h4
            split at hread
            · exact Except.noConfusion hread
            · rename_i acct h5
              injection hread with hh
              subst hh
              have hok : (validate_mods config.mods).isOk = true := by rw [h3]; rfl
              have hnot := (validate_mods_ok_iff config.mods).mp hok p (by
                simpa [Mac.new] using hp)
              exact hnot ⟨hboth.2, hboth.1⟩

/-- C4 witness: a spec whose mod "m" carries only a version passes the
    validation, and the entry indeed does not have both fields set. -/
theorem read_validate_spec_witness :
    ¬((some "1" : Option String).isSome = true ∧
      (Option.none : Option String).isSome = true) :=
  read_validate_spec.2
    (fun _ => Except.ok { RuntimeConfig.default with
      mods := some [("m", { version := some "1", file_name := Option.none })] })
    (fun _ => Except.ok { mods := Option.none })
    (fun _ => Except.ok { user_name := "n", user_type := "offline", user_uuid := "u" })
    { user_name := "n", user_type := "offline", user_uuid := "u" }
    { config_toml := some "", config_lock := some "", account_toml := some "" }
    { config := Mac.new { RuntimeConfig.default with
        mods := some [("m", { version := some "1", file_name := Option.none })] }
      locked_config := Mac.new { mods := Option.none }
      user_account := Mac.new { user_name := "n", user_type := "offline", user_uuid := "u" } }
    rfl ("m", { version := some "1", file_name := Option.none }) (by simp [Mac.new])

/-- C4 counterexample: `read()` accepts a spec whose only mod entry has
    neither `version` nor `file_name` set, so a successful read does not
    guarantee that exactly one of the two is set. -/
theorem read_accepts_neither_set :
    ConfigHandler.read
        (fun _ => Except.ok { RuntimeConfig.default with
          mods := some [("m", { version := Option.none, file_name := Option.none })] })
        (fun _ => Except.ok { mods := Option.none })
        (fun _ => Except.ok { user_name := "n", user_type := "offline", user_uuid := "u" })
        { user_name := "n", user_type := "offline", user_uuid := "u" }
        { config_toml := some "", config_lock := some "", account_toml := some "" } =
      Except.ok
        { config := Mac.new { RuntimeConfig.default with
            mods := some [("m", { version := Option.none, file_name := Option.none })] }
          locked_config := Mac.new { mods := Option.none }
          user_account := Mac.new { user_name := "n", user_type := "offline", user_uuid := "u" } } ∧
    (({ version := Option.none, file_name := Option.none } : ModConfig).version.isSome = false ∧
      ({ version := Option.none, file_name := Option.none } : ModConfig).file_name.isSome = false) :=
  ⟨rfl, rfl, rfl⟩

/-- C5: when `config.lock` is absent, `fs::exists("config.lock")` returns
    `Ok(false)`, so `.is_ok()` is still true, `read()` takes the
    read-the-file branch, and `fs::read_to_string` fails with not-found:
    `read()` returns that error instead of defaulting the lock to the
    empty document — contradicting its own doc comment ("When config.lock
    not exist, this function will create a default config.lock data"). -/
theorem read_errors_when_lock_missing (pl : String → Except String LockedConfig)
    (pa : String → Except String UserAccount) (fa : UserAccount) :
    (∀ f, (fs_exists f).isOk = true) ∧
    ConfigHandler.read (fun _ => Except.ok RuntimeConfig.default) pl pa fa
        { config_toml := some "", config_lock := Option.none, account_toml := some "" } =
      Except.error "No such file or directory" :=
  ⟨fun _ => rfl, rfl⟩

theorem used_files_mem (cm : List (String × ModConfig))
    (lm : List (String × LockedModConfig)) (x : String) :
    x ∈ used_files (some cm) (some lm) ↔
      ∃ p ∈ cm, ∃ c, lookupMod p.1 lm = some c ∧ c.file_name = x := by
  unfold used_files
  simp [List.mem_filterMap, Option.map_eq_some']

/-- C6 amended: with `used_files` being the lock file names of spec mods
    (first conjunct), the disable pass renames exactly the walked entries
    whose name is not "mods", does not end in ".unuse" and is not a used
    file, appending ".unuse" — directory entries are not exempt (the code
    never inspects the file type; see the counterexample) — and the
    enable pass renames exactly the ".unuse" entries whose stem is a used
    file, stripping the suffix; no other entry is renamed. -/
theorem reconcile_renames_spec (cm : List (String × ModConfig))
    (lm : List (String × LockedModConfig)) (entries : List DirEntry) (n m x : String) :
    (x ∈ used_files (some cm) (some lm) ↔
      ∃ p ∈ cm, ∃ c, lookupMod p.1 lm = some c ∧ c.file_name = x) ∧
    ((n, m) ∈ disable_unuse_mods (used_files (some cm) (some lm)) entries ↔
      (∃ e ∈ entries, e.name = n) ∧ n ≠ "mods" ∧ strEndsWith n ".unuse" = false ∧
        (used_files (some cm) (some lm)).contains n = false ∧ m = n ++ ".unuse") ∧
    ((n, m) ∈ enable_used_mods (used_files (some cm) (some lm)) entries ↔
      (∃ e ∈ entries, e.name = n) ∧ strEndsWith n ".unuse" = true ∧
        (used_files (some cm) (some lm)).any (fun y => y ++ ".unuse" == n) = true ∧
        m = strDropRight n 6) := by
  refine ⟨used_files_mem cm lm x, ?_, ?_⟩
  · unfold disable_unuse_mods
    rw [List.mem_filterMap]
    constructor
    · rintro ⟨e, he, hfe⟩
      cases h1 : (e.name == "mods" || strEndsWith e.name ".unuse") with
      | true => rw [h1] at hfe; exact Option.noConfusion hfe
      | false =>
        rw [h1] at hfe
        simp only [Bool.false_eq_true, if_false] at hfe
        cases h2 : (used_files (some cm) (some lm)).contains e.name with
        | true => rw [h2] at hfe; simp at hfe
        | false =>
          rw [h2] at hfe
          simp only [Bool.false_eq_true, if_false, Option.some.injEq, Prod.mk.injEq] at hfe
          rcases hfe with ⟨hn, hm⟩
          subst hn
          rcases Bool.or_eq_false_iff.mp h1 with ⟨hmods, hunuse⟩
          exact ⟨⟨e, he, rfl⟩, by simpa using hmods, hunuse, h2, hm.symm⟩
    · rintro ⟨⟨e, he, hen⟩, hnm, hend, hcont, hm⟩
      refine ⟨e, he, ?_⟩
      rw [hen, hm]
      have hmods : (n == "mods") = false := by simpa using hnm
      rw [show (n == "mods" || strEndsWith n ".unuse") = false from by
        rw [hmods, hend]; rfl]
      rw [hcont]
      rfl
  · unfold enable_used_mods
    rw [List.mem_filterMap]
    constructor
    · rintro ⟨e, he, hfe⟩
      cases h1 : strEndsWith e.name ".unuse" with
      | false => rw [h1] at hfe; exact Option.noConfusion hfe
      | true =>
        rw [h1] at hfe
        simp only [if_true] at hfe
        cases h2 : (used_files (some cm) (some lm)).any (fun y => y ++ ".unuse" == e.name) with
        | false => rw [h2] at hfe; simp at hfe
        | true =>
          rw [h2] at hfe
          simp only [if_true, Option.some.injEq, Prod.mk.injEq] at hfe
          rcases hfe with ⟨hn, hm⟩
          subst hn
          exact ⟨⟨e, he, rfl⟩, h1, h2, hm.symm⟩
    · rintro ⟨⟨e, he, hen⟩, hend, hany, hm⟩
      refine ⟨e, he, ?_⟩
      rw [hen, hm, hend, hany]
      rfl

/-- C6 counterexample: a subdirectory of the mods folder named "d" (a
    directory entry) is renamed to "d.unuse" by the disable pass,
    refuting "directory entries and the mods directory itself are never
    renamed". -/
theorem disable_renames_directory :
    ({ name := "d", isDir := true } : DirEntry).isDir = true ∧
    disable_unuse_mods [] [{ name := "d", isDir := true }] = [("d", "d.unuse")] := by
  exact ⟨rfl, by decide⟩

theorem applyAccesses_config_flag (h : ConfigHandler) (trace : List Access) :
    ((h.applyAccesses trace).config.has_mut_accessed = true ↔
      h.config.has_mut_accessed = true ∨ Access.configMut ∈ trace) := by
  induction trace generalizing h with
  | nil => simp [ConfigHandler.applyAccesses]
  | cons a as ih =>
    rw [show ConfigHandler.applyAccesses h (a :: as) =
      ConfigHandler.applyAccesses (h.applyAccess a) as from rfl]
    rw [ih]
    cases a <;>
      simp [ConfigHandler.applyAccess, Mac.markMut, List.mem_cons]

theorem applyAccesses_locked_flag (h : ConfigHandler) (trace : List Access) :
    ((h.applyAccesses trace).locked_config.has_mut_accessed = true ↔
      h.locked_config.has_mut_accessed = true ∨ Access.lockedConfigMut ∈ trace) := by
  induction trace generalizing h with
  | nil => simp [ConfigHandler.applyAccesses]
  | cons a as ih =>
    rw [show ConfigHandler.applyAccesses h (a :: as) =
      ConfigHandler.applyAccesses (h.applyAccess a) as from rfl]
    rw [ih]
    cases a <;>
      simp [ConfigHandler.applyAccess, Mac.markMut, List.mem_cons]

theorem applyAccesses_account_flag (h : ConfigHandler) (trace : List Access) :
    ((h.applyAccesses trace).user_account.has_mut_accessed = true ↔
      h.user_account.has_mut_accessed = true ∨ Access.userAccountMut ∈ trace) := by
  induction trace generalizing h with
  | nil => simp [ConfigHandler.applyAccesses]
  | cons a as ih =>
    rw [show ConfigHandler.applyAccesses h (a :: as) =
      ConfigHandler.applyAccesses (h.applyAccess a) as from rfl]
    rw [ih]
    cases a <;>
      simp [ConfigHandler.applyAccess, Mac.markMut, List.mem_cons]

/-- C9: starting from a freshly read handle (all touched flags false) and
    any sequence of accessor observations, `write_with_mut` — the routine
    the `Drop` impl and explicit flushes run — writes each of the three
    documents back exactly when its `*_mut` accessor occurred in the
    sequence (a document observed only immutably is not written), and
    reconciles the on-disk mod directory exactly when it exists,
    independently of the touched flags. -/
theorem write_with_mut_spec (c : RuntimeConfig) (l : LockedConfig) (a : UserAccount)
    (trace : List Access) (mods_dir_exists : Bool) :
    ((ConfigHandler.write_with_mut
        (ConfigHandler.applyAccesses
          { config := Mac.new c, locked_config := Mac.new l, user_account := Mac.new a }
          trace) mods_dir_exists).wrote_config_toml = true ↔
      Access.configMut ∈ trace) ∧
    ((ConfigHandler.write_with_mut
        (ConfigHandler.applyAccesses
          { config := Mac.new c, locked_config := Mac.new l, user_account := Mac.new a }
          trace) mods_dir_exists).wrote_config_lock = true ↔
      Access.lockedConfigMut ∈ trace) ∧
    ((ConfigHandler.write_with_mut
        (ConfigHandler.applyAccesses
          { config := Mac.new c, locked_config := Mac.new l, user_account := Mac.new a }
          trace) mods_dir_exists).wrote_account_toml = true ↔
      Access.userAccountMut ∈ trace) ∧
    (ConfigHandler.write_with_mut
        (ConfigHandler.applyAccesses
          { config := Mac.new c, locked_config := Mac.new l, user_account := Mac.new a }
          trace) mods_dir_exists).reconciled_mods = mods_dir_exists := by
  refine ⟨?_, ?_, ?_, rfl⟩
  · have := applyAccesses_config_flag
      { config := Mac.new c, locked_config := Mac.new l, user_account := Mac.new a } trace
    simpa [ConfigHandler.write_with_mut, Mac.new] using this
  · have := applyAccesses_locked_flag
      { config := Mac.new c, locked_config := Mac.new l, user_account := Mac.new a } trace
    simpa [ConfigHandler.write_with_mut, Mac.new] using this
  · have := applyAccesses_account_flag
      { config := Mac.new c, locked_config := Mac.new l, user_account := Mac.new a } trace
    simpa [ConfigHandler.write_with_mut, Mac.new] using this

end Config

namespace Modmanage

/-- C10: when both the spec's and the lock's mods maps are present,
    `install` first assigns through `locked_config_mut()` — marking the
    lock mutably accessed, so `write_with_mut` persists `config.lock` on
    handle drop — the lock entries filtered to names that appear in the
    spec, and only then derives the install tasks from the pruned
    handler; hence every lock entry that survives names a spec mod. -/
theorem install_prunes_lock (h : Config.ConfigHandler)
    (cm : List (String × Config.ModConfig)) (lm : List (String × Config.LockedModConfig))
    (hc : h.config.value.mods = some cm) (hl : h.locked_config.value.mods = some lm)
    (mods_dir_exists : Bool) :
    ∃ h2 tasks, install h = Except.ok (h2, tasks) ∧
      h2.locked_config.has_mut_accessed = true ∧
      h2.locked_config.value.mods =
        some (lm.filter (fun p => cm.any (fun q => q.1 == p.1))) ∧
      (∀ p ∈ h2.locked_config.value.mods.getD [], cm.any (fun q => q.1 == p.1) = true) ∧
      (Config.ConfigHandler.write_with_mut h2 mods_dir_exists).wrote_config_lock = true ∧
      mod_installtasks h2 = Except.ok tasks := by
  have hinst : install h =
      Except.ok
        ({ h with locked_config :=
            { value := { h.locked_config.value with
                mods := some (lm.filter (fun p => cm.any (fun q => q.1 == p.1))) }
              has_mut_accessed := true } },
          ((lm.filter (fun p => cm.any (fun q => q.1 == p.1))).filter
              (fun p => p.2.url.isSome && p.2.sha1.isSome)).map
            (fun p =>
              { url := p.2.url.getD ""
                sha1 := some (p.2.sha1.getD "")
                save_file := h.config.value.game_dir ++ "/mods/" ++ p.2.file_name
                message := "Mod " ++ p.2.file_name ++ " installed" })) := by
    unfold install mod_installtasks
    rw [hl, hc]
    rfl
  refine ⟨_, _, hinst, rfl, rfl, ?_, rfl, ?_⟩
  · intro p hp
    have hp2 : p ∈ lm.filter (fun q => cm.any (fun r => r.1 == q.1)) := by
      simpa using hp
    exact (List.mem_filter.mp hp2).2
  · unfold mod_installtasks
    rfl

/-- C10 witness: a concrete handler whose lock holds mods "a" and "b"
    while the spec names only "a"; `install` succeeds (and prunes). -/
theorem install_prunes_lock_witness :
    (install
        { config := Config.Mac.new { Config.RuntimeConfig.default with
            mods := some [("a", { version := some "1", file_name := Option.none })] },
          locked_config := Config.Mac.new { mods := some [
            ("a", { file_name := "a.jar", version := some "1", mc_version := "1.20",
                    url := some "https://cdn/a.jar", sha1 := some "aa" }),
            ("b", { file_name := "b.jar", version := Option.none, mc_version := "1.20",
                    url := Option.none, sha1 := Option.none })] },
          user_account := Config.Mac.new
            { user_name := "n", user_type := "offline", user_uuid := "u" } }).isOk = true := by
  obtain ⟨h2, tasks, heq, _⟩ := install_prunes_lock
    { config := Config.Mac.new { Config.RuntimeConfig.default with
        mods := some [("a", { version := some "1", file_name := Option.none })] },
      locked_config := Config.Mac.new { mods := some [
        ("a", { file_name := "a.jar", version := some "1", mc_version := "1.20",
                url := some "https://cdn/a.jar", sha1 := some "aa" }),
        ("b", { file_name := "b.jar", version := Option.none, mc_version := "1.20",
                url := Option.none, sha1 := Option.none })] },
      user_account := Config.Mac.new
        { user_name := "n", user_type := "offline", user_uuid := "u" } }
    [("a", { version := some "1", file_name := Option.none })]
    [("a", { file_name := "a.jar", version := some "1", mc_version := "1.20",
             url := some "https://cdn/a.jar", sha1 := some "aa" }),
     ("b", { file_name := "b.jar", version := Option.none, mc_version := "1.20",
             url := Option.none, sha1 := Option.none })]
    rfl rfl false
  rw [heq]
  rfl

end Modmanage

end MCLauncher
